import Mathlib

/-!
Shallow embedding of paddle/gserver/dataproviders/PyDataProvider2.cpp.

The file models: the producer/consumer bounded sample pool of
PyDataProvider2 (loadThread push predicate, getNextBatchInternal draw
loop), the PositionRandom index sampler, the CacheOnePassInMemory cache
strategy, and the field scanner hierarchy (sparse row offsets, sequence
start offsets, scanner factory).  Samples are opaque values of a type
parameter; Python integers are Nat or Int; the random engine is an
oracle stream of natural numbers.
-/

set_option maxHeartbeats 1000000

namespace PyDataProvider2

/-- Slot type enum from the source (ST_DENSE, ST_NON_SPARSE_VALUE,
ST_SPARSE_VALUE, ST_INDEX). -/
inductive SlotType where
  | dense : SlotType
  | nonSparseValue : SlotType
  | sparseValue : SlotType
  | index : SlotType
deriving DecidableEq

/-- Sequence type enum from the source (SQT_NONE, SQT_SEQ, SQT_SUBSEQ). -/
inductive SeqType where
  | none : SeqType
  | seq : SeqType
  | subseq : SeqType
deriving DecidableEq

/-- PositionRandom::operator(): when skipRand is set it returns 0,
otherwise it draws from a uniform distribution over [0, len).  The
draw of the random engine is modelled by the oracle value r reduced
modulo len. -/
def positionRandom (skipRand : Bool) (r len : Nat) : Nat :=
  if skipRand then 0 else r % len

/-- The wait predicate of loadThread before a push: with
can_over_batch_size the producer may proceed when poolActualSize <
poolSize, otherwise only when poolActualSize + additionalBatchSize <
poolSize. -/
def pushReady (canOver : Bool) (poolSize aw w : Nat) : Bool :=
  if canOver then aw < poolSize else aw + w < poolSize

/-- The shared state touched by loadThread when pushing: the FIFO
sample deque dataPool and the weight counter poolActualSize. -/
structure SamplePool (α : Type) where
  dataPool : List α
  poolActualSize : Nat
deriving DecidableEq

/-- One push of loadThread: if the wait predicate holds the sample is
appended to the back of the deque and poolActualSize is incremented by
the weight; otherwise the producer stays blocked (modelled as none). -/
def pushSample (canOver : Bool) (poolSize : Nat) (st : SamplePool α)
    (sample : α) (w : Nat) : Option (SamplePool α) :=
  if pushReady canOver poolSize st.poolActualSize w then
    some ⟨st.dataPool ++ [sample], st.poolActualSize + w⟩
  else none

/-- One draw of the getNextBatchInternal loop body: FIFO pop_front when
skipShuffle, otherwise pick i = rand mod pool.size, swap the element at
i with the back and pop_back.  Returns the drawn sample and the
remaining pool; none when the pool is empty (the loop guard). -/
def drawStep (skipShuffle : Bool) (r : Nat) (pool : List α) :
    Option (α × List α) :=
  match pool with
  | [] => none
  | x :: xs =>
    if skipShuffle then
      some (x, xs)
    else
      some ((x :: xs).get ⟨r % (x :: xs).length, Nat.mod_lt r (Nat.succ_pos xs.length)⟩,
        (List.set (x :: xs) (r % (x :: xs).length)
          ((x :: xs).getLast (List.cons_ne_nil x xs))).dropLast)

/-- The while loop of getNextBatchInternal: while bsize < size and the
pool is non-empty, draw one sample, append it to data and add its
weight (calc_batch_size result; 1 by default) to bsize.  One random
oracle value is consumed per draw in the shuffled branch.  The fuel is
an upper bound on the iteration count; the callers pass pool.length,
which is exact since every iteration removes one pool element. -/
def drawLoopGo (skipShuffle : Bool) (weight : α → Nat) (size : Nat) :
    Nat → List α → List Nat → List α → Nat → List α × Nat × List α × List Nat
  | 0, pool, rands, data, bsize => (data, bsize, pool, rands)
  | fuel + 1, pool, rands, data, bsize =>
    if bsize < size then
      match drawStep skipShuffle (rands.headD 0) pool with
      | none => (data, bsize, pool, rands)
      | some (a, pool') =>
        drawLoopGo skipShuffle weight size fuel pool'
          (if skipShuffle then rands else rands.tail)
          (data ++ [a]) (bsize + weight a)
    else (data, bsize, pool, rands)

/-- The draw phase of getNextBatchInternal: returns the drawn batch
data, the accumulated weight bsize (the return value of the call when
non-zero), and the remaining pool. -/
def drawLoop (skipShuffle : Bool) (weight : α → Nat) (size : Nat)
    (pool : List α) (rands : List Nat) : List α × Nat × List α :=
  let r := drawLoopGo skipShuffle weight size pool.length pool rands [] 0
  (r.1, r.2.1, r.2.2.1)

/-- CacheOnePassInMemory state: objPool is the replay buffer returned
by load(), droppedPool is the collected buffer appended by drop(). -/
structure CacheOnePass (α : Type) where
  objPool : List α
  droppedPool : List α
deriving DecidableEq

/-- CacheOnePassInMemory::reset(): if both buffers are empty return
true (read from python); else if objPool is empty swap the buffers and
return false; otherwise LOG(FATAL), modelled as none. -/
def CacheOnePass.reset (c : CacheOnePass α) : Option (Bool × CacheOnePass α) :=
  if c.objPool.isEmpty && c.droppedPool.isEmpty then some (true, c)
  else if c.objPool.isEmpty then some (false, ⟨c.droppedPool, c.objPool⟩)
  else none

/-- CacheOnePassInMemory::drop(): append the consumed batch to the
collected buffer (element moves preserving order) and clear the input. -/
def CacheOnePass.drop (c : CacheOnePass α) (data : List α) : CacheOnePass α :=
  ⟨c.objPool, c.droppedPool ++ data⟩

/-- CacheOnePassInMemory::load(): return the replay buffer. -/
def CacheOnePass.load (c : CacheOnePass α) : List α :=
  c.objPool

/-- The order in which loadThread emits samples when shuffling is
disabled: the position sampler always returns index 0, so the context
at index 0 is pulled until it exhausts and is then erased. -/
def loadThreadOrder : List (List α) → List α
  | [] => []
  | [] :: rest => loadThreadOrder rest
  | (x :: xs) :: rest => x :: loadThreadOrder (xs :: rest)
termination_by ctxs => (ctxs.map List.length).sum + ctxs.length
decreasing_by
  all_goals simp

/-- The sparse scanners measure height (sample count) and nnz (sum of
per-sample element counts) during prepare; this function is the row
offset array the fill phase writes: row 0 is 0 and each row h is
row (h-1) plus the element count of sample h.  The generic step
function f covers both the non-value scanner (f = length of a column
list) and the sequence scanners (f = recursive element count). -/
def offsetsFrom (f : α → Nat) : Nat → List α → List Nat
  | acc, [] => [acc]
  | acc, x :: xs => acc :: offsetsFrom f (acc + f x) xs

/-- Row offsets written by SparseNonValueScanner / SparseValueScanner
fill over one batch of samples, each sample a list of entries. -/
def sparseRowOffsets (samples : List (List α)) : List Nat :=
  offsetsFrom List.length 0 samples

/-- nnz accumulated by SparseNonValueScanner::prepare. -/
def sparseNnz (samples : List (List α)) : Nat :=
  (samples.map List.length).sum

/-- Column entries appended by SparseNonValueScanner::fill, in order. -/
def sparseCols (samples : List (List α)) : List α :=
  samples.flatten

/-- A python object fed to a scanner: an atomic value or a sequence. -/
inductive PyObj where
  | atom : Int → PyObj
  | seq : List PyObj → PyObj

/-- SequenceHelper contents of a python object (atoms have none). -/
def PyObj.elems : PyObj → List PyObj
  | PyObj.atom _ => []
  | PyObj.seq l => l

/-- SequenceScanner::getSize with d nested SequenceScanner layers below
this scanner: when the inner scanner is itself a SequenceScanner the
size of an outer sample is the recursive sum over its elements,
otherwise it is the sequence length of the sample. -/
def getSize : Nat → PyObj → Nat
  | 0 => fun o => o.elems.length
  | d + 1 => fun o => (o.elems.map (getSize d)).sum

/-- Sequence start offsets written by SequenceScanner::fill over the
outer samples: offset 0 is 0 and each next offset adds getSize of the
sample, where d counts the SequenceScanner layers below this one. -/
def seqOffsets (d : Nat) (samples : List PyObj) : List Nat :=
  offsetsFrom (getSize d) 0 samples

/-- The scanner variants built by IFieldScanner::create. -/
inductive Scanner where
  | dense : Scanner
  | index : Scanner
  | sparseNonValue : Scanner
  | sparseValue : Scanner
  | seqWrap : Scanner → Scanner
deriving DecidableEq

/-- The base scanner chosen from the slot type in IFieldScanner::create. -/
def baseScanner : SlotType → Scanner
  | SlotType.dense => Scanner.dense
  | SlotType.index => Scanner.index
  | SlotType.nonSparseValue => Scanner.sparseNonValue
  | SlotType.sparseValue => Scanner.sparseValue

/-- IFieldScanner::create: the base scanner is wrapped once for
SQT_SEQ; for SQT_SUBSEQ the sub-sequence wrapper is applied and the
switch falls through, so a second (sequence) wrapper is applied. -/
def createScanner (slotType : SlotType) (seqType : SeqType) : Scanner :=
  match seqType with
  | SeqType.none => baseScanner slotType
  | SeqType.seq => Scanner.seqWrap (baseScanner slotType)
  | SeqType.subseq => Scanner.seqWrap (Scanner.seqWrap (baseScanner slotType))

/-- One transition of the bounded pool weight counter: a producer push
guarded by the loadThread wait predicate with per-push weight at most
W, or a consumer removal of weight at most the current counter. -/
inductive PoolStep (canOver : Bool) (poolSize W : Nat) : Nat → Nat → Prop where
  | push (aw w : Nat) (hw : w ≤ W)
      (hready : pushReady canOver poolSize aw w = true) :
      PoolStep canOver poolSize W aw (aw + w)
  | pop (aw d : Nat) (hd : d ≤ aw) :
      PoolStep canOver poolSize W aw (aw - d)

/-- Reachable values of poolActualSize: 0 after reset, closed under
producer pushes and consumer removals. -/
inductive PoolReachable (canOver : Bool) (poolSize W : Nat) : Nat → Prop where
  | init : PoolReachable canOver poolSize W 0
  | step {aw aw' : Nat} : PoolReachable canOver poolSize W aw →
      PoolStep canOver poolSize W aw aw' → PoolReachable canOver poolSize W aw'

/-- Repeated getNextBatchInternal calls of requested weight b with the
default weigher (weight 1 per sample), draining a pool until a call
returns 0: yields the number of samples consumed and the concatenation
of the consumed batches in consumption order (the data handed to
cache drop, which is invoked only when the returned bsize is not 0).
The fuel bounds the number of batch calls; callers pass
pool.length + 1, which suffices since every non-final call consumes at
least one sample. -/
def drainPassGo (skipShuffle : Bool) (b : Nat) :
    Nat → List α → List Nat → Nat × List α
  | 0, _, _ => (0, [])
  | fuel + 1, pool, rands =>
    let r := drawLoopGo skipShuffle (fun _ => 1) b pool.length pool rands [] 0
    if r.2.1 = 0 then (0, [])
    else
      let rest := drainPassGo skipShuffle b fuel r.2.2.1 r.2.2.2
      (r.1.length + rest.1, r.1 ++ rest.2)

/-- Drain a whole pass with batch weight b. -/
def drainPass (skipShuffle : Bool) (b : Nat) (pool : List α)
    (rands : List Nat) : Nat × List α :=
  drainPassGo skipShuffle b (pool.length + 1) pool rands

/-- Two passes of a provider configured with CacheOnePassInMemory.
Pass 1: resetImpl consults cache reset on the initially empty cache;
when it returns true the load thread is started and produces the
generator output S, which the consumer drains and drops into the
cache.  Then reset is called again: when cache reset returns true a
new load thread is started (the generators are pulled again, yielding
S), otherwise the consumer drains the replay buffer returned by cache
load.  Returns the per-pass consumed sample counts and whether pass 2
started a producer thread; none when cache reset hits LOG(FATAL). -/
def runTwoPasses (skipShuffle : Bool) (b : Nat) (S : List α)
    (r1 r2 : List Nat) : Option (Nat × Bool × Nat) :=
  match CacheOnePass.reset (⟨[], []⟩ : CacheOnePass α) with
  | none => none
  | some (start1, c0) =>
    let pool1 := if start1 then S else c0.load
    let p1 := drainPass skipShuffle b pool1 r1
    let c1 := c0.drop p1.2
    match CacheOnePass.reset c1 with
    | none => none
    | some (start2, c2) =>
      let pool2 := if start2 then S else c2.load
      let p2 := drainPass skipShuffle b pool2 r2
      some (p1.1, start2, p2.1)

/-! Helper lemmas about the offset arrays. -/

lemma offsetsFrom_length (f : α → Nat) :
    ∀ (acc : Nat) (l : List α), (offsetsFrom f acc l).length = l.length + 1
  | _, [] => rfl
  | acc, x :: xs => by
    simp [offsetsFrom, offsetsFrom_length f (acc + f x) xs]

lemma offsetsFrom_head (f : α → Nat) (acc : Nat) (l : List α) :
    (offsetsFrom f acc l).head? = some acc := by
  cases l <;> rfl

lemma offsetsFrom_getLast (f : α → Nat) :
    ∀ (acc : Nat) (l : List α),
      (offsetsFrom f acc l).getLast? = some (acc + (l.map f).sum)
  | acc, [] => by simp [offsetsFrom]
  | acc, x :: xs => by
    have ih := offsetsFrom_getLast f (acc + f x) xs
    cases xs with
    | nil => simp [offsetsFrom]
    | cons y ys =>
      rw [offsetsFrom, offsetsFrom, List.getLast?_cons_cons, ← offsetsFrom, ih]
      simp [Nat.add_assoc]

lemma offsetsFrom_le_of_mem (f : α → Nat) :
    ∀ (acc : Nat) (l : List α) (y : Nat), y ∈ offsetsFrom f acc l → acc ≤ y
  | acc, [], y, h => by
    simp [offsetsFrom] at h
    omega
  | acc, x :: xs, y, h => by
    simp only [offsetsFrom, List.mem_cons] at h
    rcases h with rfl | h
    · exact Nat.le_refl _
    · exact Nat.le_trans (Nat.le_add_right _ _)
        (offsetsFrom_le_of_mem f (acc + f x) xs y h)

lemma offsetsFrom_pairwise (f : α → Nat) :
    ∀ (acc : Nat) (l : List α),
      List.Pairwise (fun a b => a ≤ b) (offsetsFrom f acc l)
  | _, [] => by simp [offsetsFrom]
  | acc, x :: xs => by
    simp only [offsetsFrom]
    refine List.Pairwise.cons ?_ (offsetsFrom_pairwise f (acc + f x) xs)
    intro y hy
    exact Nat.le_trans (Nat.le_add_right _ _)
      (offsetsFrom_le_of_mem f (acc + f x) xs y hy)

/-! Helper lemmas about one draw of the batch loop. -/

lemma drawStep_nil (s : Bool) (r : Nat) : drawStep s r ([] : List α) = none :=
  rfl

lemma drawStep_true (r : Nat) (x : α) (xs : List α) :
    drawStep true r (x :: xs) = some (x, xs) :=
  rfl

lemma drawStep_some_of_ne_nil (s : Bool) (r : Nat) (pool : List α)
    (h : pool ≠ []) : ∃ a pool', drawStep s r pool = some (a, pool') := by
  match pool with
  | [] => exact absurd rfl h
  | x :: xs =>
    cases s with
    | true => exact ⟨x, xs, rfl⟩
    | false => exact ⟨_, _, rfl⟩

lemma drawStep_sound (s : Bool) (r : Nat) (pool pool' : List α) (a : α)
    (h : drawStep s r pool = some (a, pool')) :
    a ∈ pool ∧ pool'.length + 1 = pool.length ∧ ∀ b ∈ pool', b ∈ pool := by
  match pool with
  | [] => simp [drawStep] at h
  | x :: xs =>
    cases s with
    | true =>
      rw [drawStep_true] at h
      obtain ⟨rfl, rfl⟩ := Prod.mk.injEq .. ▸ Option.some.inj h
      exact ⟨List.mem_cons_self x xs, rfl,
        fun b hb => List.mem_cons_of_mem x hb⟩
    | false =>
      simp only [drawStep, Bool.false_eq_true, if_false, Option.some.injEq,
        Prod.mk.injEq] at h
      obtain ⟨h1, h2⟩ := h
      subst h1
      subst h2
      refine ⟨List.get_mem _ _ _, ?_, ?_⟩
      · simp [List.length_set]
      · intro b hb
        have hb2 : b ∈ List.set (x :: xs) (r % (x :: xs).length)
            ((x :: xs).getLast (List.cons_ne_nil x xs)) :=
          List.dropLast_subset _ hb
        rcases List.mem_or_eq_of_mem_set hb2 with h1 | h1
        · exact h1
        · exact h1 ▸ List.getLast_mem _

/-! Unfolding lemmas for the batch loop. -/

lemma drawLoopGo_zero (s : Bool) (w : α → Nat) (size : Nat) (pool : List α)
    (rands : List Nat) (data : List α) (bsize : Nat) :
    drawLoopGo s w size 0 pool rands data bsize = (data, bsize, pool, rands) :=
  rfl

lemma drawLoopGo_stop (s : Bool) (w : α → Nat) (size fuel : Nat)
    (pool : List α) (rands : List Nat) (data : List α) (bsize : Nat)
    (h : ¬ bsize < size) :
    drawLoopGo s w size (fuel + 1) pool rands data bsize =
      (data, bsize, pool, rands) := by
  simp [drawLoopGo, h]

lemma drawLoopGo_nil (s : Bool) (w : α → Nat) (size fuel : Nat)
    (rands : List Nat) (data : List α) (bsize : Nat) :
    drawLoopGo s w size (fuel + 1) ([] : List α) rands data bsize =
      (data, bsize, [], rands) := by
  by_cases h : bsize < size <;> simp [drawLoopGo, drawStep, h]

lemma drawLoopGo_step (s : Bool) (w : α → Nat) (size fuel : Nat)
    (pool : List α) (rands : List Nat) (data : List α) (bsize : Nat)
    (a : α) (pool' : List α) (hb : bsize < size)
    (hstep : drawStep s (rands.headD 0) pool = some (a, pool')) :
    drawLoopGo s w size (fuel + 1) pool rands data bsize =
      drawLoopGo s w size fuel pool' (if s then rands else rands.tail)
        (data ++ [a]) (bsize + w a) := by
  simp only [drawLoopGo, if_pos hb]
  rw [hstep]

/-! Invariants of the batch loop, by induction on the fuel. -/

lemma drawLoopGo_count (s : Bool) (w : α → Nat) (size : Nat) :
    ∀ (fuel : Nat) (pool : List α) (rands : List Nat) (data : List α)
      (bsize : Nat),
      (drawLoopGo s w size fuel pool rands data bsize).1.length +
        (drawLoopGo s w size fuel pool rands data bsize).2.2.1.length =
      data.length + pool.length := by
  intro fuel
  induction fuel with
  | zero => intro pool rands data bsize; rw [drawLoopGo_zero]
  | succ n ih =>
    intro pool rands data bsize
    by_cases hb : bsize < size
    · match pool with
      | [] => rw [drawLoopGo_nil]
      | x :: xs =>
        obtain ⟨a, pool', hstep⟩ :=
          drawStep_some_of_ne_nil s (rands.headD 0) (x :: xs)
            (List.cons_ne_nil x xs)
        obtain ⟨_, hlen, _⟩ := drawStep_sound s _ _ _ _ hstep
        rw [drawLoopGo_step s w size n (x :: xs) rands data bsize a pool' hb hstep]
        have := ih pool' (if s then rands else rands.tail) (data ++ [a])
          (bsize + w a)
        simp only [List.length_append, List.length_cons, List.length_nil]
          at this hlen ⊢
        omega
    · rw [drawLoopGo_stop _ _ _ _ _ _ _ _ hb]

lemma drawLoopGo_bsize_mono (s : Bool) (w : α → Nat) (size : Nat) :
    ∀ (fuel : Nat) (pool : List α) (rands : List Nat) (data : List α)
      (bsize : Nat),
      bsize ≤ (drawLoopGo s w size fuel pool rands data bsize).2.1 := by
  intro fuel
  induction fuel with
  | zero => intro pool rands data bsize; rw [drawLoopGo_zero]
  | succ n ih =>
    intro pool rands data bsize
    by_cases hb : bsize < size
    · match pool with
      | [] => rw [drawLoopGo_nil]
      | x :: xs =>
        obtain ⟨a, pool', hstep⟩ :=
          drawStep_some_of_ne_nil s (rands.headD 0) (x :: xs)
            (List.cons_ne_nil x xs)
        rw [drawLoopGo_step s w size n (x :: xs) rands data bsize a pool' hb hstep]
        exact Nat.le_trans (Nat.le_add_right _ _)
          (ih pool' (if s then rands else rands.tail) (data ++ [a]) (bsize + w a))
    · rw [drawLoopGo_stop _ _ _ _ _ _ _ _ hb]

lemma drawLoopGo_bsize_unit (s : Bool) (size : Nat) :
    ∀ (fuel : Nat) (pool : List α) (rands : List Nat) (data : List α)
      (bsize : Nat),
      (drawLoopGo s (fun _ => 1) size fuel pool rands data bsize).2.1 +
          data.length =
        (drawLoopGo s (fun _ => 1) size fuel pool rands data bsize).1.length +
          bsize := by
  intro fuel
  induction fuel with
  | zero =>
    intro pool rands data bsize
    rw [drawLoopGo_zero]
    show bsize + data.length = data.length + bsize
    omega
  | succ n ih =>
    intro pool rands data bsize
    by_cases hb : bsize < size
    · match pool with
      | [] =>
        rw [drawLoopGo_nil]
        show bsize + data.length = data.length + bsize
        omega
      | x :: xs =>
        obtain ⟨a, pool', hstep⟩ :=
          drawStep_some_of_ne_nil s (rands.headD 0) (x :: xs)
            (List.cons_ne_nil x xs)
        rw [drawLoopGo_step s (fun _ => 1) size n (x :: xs) rands data bsize a
          pool' hb hstep]
        have := ih pool' (if s then rands else rands.tail) (data ++ [a])
          (bsize + 1)
        simp only [List.length_append, List.length_cons, List.length_nil]
          at this ⊢
        omega
    · rw [drawLoopGo_stop _ _ _ _ _ _ _ _ hb]
      show bsize + data.length = data.length + bsize
      omega

lemma drawLoopGo_wbound (s : Bool) (w : α → Nat) (size W : Nat) :
    ∀ (fuel : Nat) (pool : List α) (rands : List Nat) (data : List α)
      (bsize : Nat), (∀ a ∈ pool, w a ≤ W) → bsize ≤ size + W - 1 →
      (drawLoopGo s w size fuel pool rands data bsize).2.1 ≤ size + W - 1 := by
  intro fuel
  induction fuel with
  | zero => intro pool rands data bsize _ hb; rw [drawLoopGo_zero]; exact hb
  | succ n ih =>
    intro pool rands data bsize hW hb0
    by_cases hb : bsize < size
    · match pool with
      | [] => rw [drawLoopGo_nil]; exact hb0
      | x :: xs =>
        obtain ⟨a, pool', hstep⟩ :=
          drawStep_some_of_ne_nil s (rands.headD 0) (x :: xs)
            (List.cons_ne_nil x xs)
        obtain ⟨hmem, _, hsub⟩ := drawStep_sound s _ _ _ _ hstep
        rw [drawLoopGo_step s w size n (x :: xs) rands data bsize a pool' hb hstep]
        refine ih pool' (if s then rands else rands.tail) (data ++ [a])
          (bsize + w a) (fun b hbmem => hW b (hsub b hbmem)) ?_
        have hwa : w a ≤ W := hW a hmem
        omega
    · rw [drawLoopGo_stop _ _ _ _ _ _ _ _ hb]; exact hb0

lemma drawLoopGo_pos (s : Bool) (size : Nat) (hsize : 0 < size)
    (fuel : Nat) (x : α) (xs : List α) (rands : List Nat) :
    0 < (drawLoopGo s (fun _ => 1) size (fuel + 1) (x :: xs) rands [] 0).2.1 := by
  obtain ⟨a, pool', hstep⟩ :=
    drawStep_some_of_ne_nil s (rands.headD 0) (x :: xs) (List.cons_ne_nil x xs)
  rw [drawLoopGo_step s (fun _ => 1) size fuel (x :: xs) rands [] 0 a pool'
    hsize hstep]
  exact Nat.lt_of_lt_of_le (Nat.zero_lt_one)
    (drawLoopGo_bsize_mono s (fun _ => 1) size fuel pool'
      (if s then rands else rands.tail) [a] (0 + 1))

lemma drawLoopGo_randIndep (w : α → Nat) (size : Nat) :
    ∀ (fuel : Nat) (pool : List α) (r1 r2 : List Nat) (data : List α)
      (bsize : Nat),
      (drawLoopGo true w size fuel pool r1 data bsize).1 =
          (drawLoopGo true w size fuel pool r2 data bsize).1 ∧
        (drawLoopGo true w size fuel pool r1 data bsize).2.1 =
          (drawLoopGo true w size fuel pool r2 data bsize).2.1 ∧
        (drawLoopGo true w size fuel pool r1 data bsize).2.2.1 =
          (drawLoopGo true w size fuel pool r2 data bsize).2.2.1 := by
  intro fuel
  induction fuel with
  | zero =>
    intro pool r1 r2 data bsize
    exact ⟨rfl, rfl, rfl⟩
  | succ n ih =>
    intro pool r1 r2 data bsize
    by_cases hb : bsize < size
    · match pool with
      | [] => rw [drawLoopGo_nil, drawLoopGo_nil]; exact ⟨rfl, rfl, rfl⟩
      | x :: xs =>
        rw [drawLoopGo_step true w size n (x :: xs) r1 data bsize x xs hb
            (drawStep_true _ x xs),
          drawLoopGo_step true w size n (x :: xs) r2 data bsize x xs hb
            (drawStep_true _ x xs)]
        simp only [if_true]
        exact ih xs r1 r2 (data ++ [x]) (bsize + w x)
    · rw [drawLoopGo_stop _ _ _ _ _ _ _ _ hb, drawLoopGo_stop _ _ _ _ _ _ _ _ hb]
      exact ⟨rfl, rfl, rfl⟩

/-! Helper lemmas about draining a full pass. -/

lemma drainPassGo_spec (s : Bool) (b : Nat) (hb : 0 < b) :
    ∀ (fuel : Nat) (pool : List α) (rands : List Nat), pool.length < fuel →
      (drainPassGo s b fuel pool rands).1 = pool.length ∧
        (drainPassGo s b fuel pool rands).2.length = pool.length := by
  intro fuel
  induction fuel with
  | zero =>
    intro pool rands hlt
    omega
  | succ n ih =>
    intro pool rands hlt
    match pool with
    | [] =>
      simp only [drainPassGo, List.length_nil, drawLoopGo_zero]
      exact ⟨rfl, rfl⟩
    | x :: xs =>
      have hpos : 0 < (drawLoopGo s (fun _ => 1) b (xs.length + 1) (x :: xs)
          rands [] 0).2.1 :=
        drawLoopGo_pos s b hb xs.length x xs rands
      have hcount := drawLoopGo_count s (fun _ => 1) b (xs.length + 1)
        (x :: xs) rands [] 0
      have hunit := drawLoopGo_bsize_unit s b (xs.length + 1) (x :: xs)
        rands [] 0
      simp only [List.length_nil, List.length_cons] at hcount hunit hlt
      simp only [drainPassGo, List.length_cons]
      rw [if_neg (by omega)]
      have hrec := ih (drawLoopGo s (fun _ => 1) b (xs.length + 1) (x :: xs)
          rands [] 0).2.2.1
        (drawLoopGo s (fun _ => 1) b (xs.length + 1) (x :: xs) rands [] 0).2.2.2
        (by omega)
      obtain ⟨hr1, hr2⟩ := hrec
      constructor
      · simp only [List.length_cons]
        omega
      · simp only [List.length_append, List.length_cons] at hr2 ⊢
        omega

lemma drainPass_spec (s : Bool) (b : Nat) (pool : List α) (rands : List Nat)
    (hb : 0 < b) :
    (drainPass s b pool rands).1 = pool.length ∧
      (drainPass s b pool rands).2.length = pool.length :=
  drainPassGo_spec s b hb (pool.length + 1) pool rands (Nat.lt_succ_self _)

/-! Claim theorems. -/

/-- Claim C1 (amended): the batch loop keeps drawing while the
accumulated weight is below maxWeight, so when every pool sample has
weigher weight at most W the accumulated total is at most
maxWeight + W - 1.  With the default weigher (weight 1 per sample) the
total is at most maxWeight; a weigher returning more than 1 can push
the total past maxWeight, so the claimed bound of maxWeight itself
does not hold in general. -/
theorem drawLoop_weight_le {α : Type} (s : Bool) (w : α → Nat) (size W : Nat)
    (pool : List α) (rands : List Nat) (hW : ∀ a ∈ pool, w a ≤ W) :
    (drawLoop s w size pool rands).2.1 ≤ size + W - 1 :=
  drawLoopGo_wbound s w size W pool.length pool rands [] 0 hW (by omega)

/-- Claim C1 witness: with unit weights and maxWeight 2 the drawn
weight is at most 2. -/
theorem drawLoop_weight_le_witness :
    (∀ a ∈ [1, 2, 3], (fun _ : Nat => 1) a ≤ 1) ∧
      (drawLoop true (fun _ : Nat => 1) 2 [1, 2, 3] []).2.1 ≤ 2 + 1 - 1 :=
  ⟨by decide, drawLoop_weight_le true (fun _ => 1) 2 1 [1, 2, 3] [] (by decide)⟩

/-- Claim C1 counterexample: with a weigher assigning weight 2 and
maxWeight 1, one sample is drawn and the total weight is 2, exceeding
maxWeight. -/
theorem drawLoop_exceeds_maxWeight :
    (drawLoop true (fun _ => 2) 1 [0] []).2.1 = 2 ∧ ¬ (2 ≤ 1) := by
  decide

/-- Claim C2 (amended): CacheOnePassInMemory reset is a three branch
state machine on (replay = objPool, collected = droppedPool): both
empty gives true; replay empty and collected non-empty swaps the
buffers and gives false; and the fatal branch is taken exactly when
replay is non-empty, regardless of whether collected is empty. -/
theorem cacheOnePassReset_branches (c : CacheOnePass Nat) :
    (c.objPool = [] → c.droppedPool = [] → c.reset = some (true, c)) ∧
      (c.objPool = [] → c.droppedPool ≠ [] →
        c.reset = some (false, ⟨c.droppedPool, c.objPool⟩)) ∧
      (c.reset = none ↔ c.objPool ≠ []) := by
  obtain ⟨o, d⟩ := c
  cases o <;> cases d <;> simp [CacheOnePass.reset]

/-- Claim C2 witness: replay empty, collected non-empty swaps and
returns false. -/
theorem cacheOnePassReset_branches_witness :
    CacheOnePass.reset (⟨[], [5]⟩ : CacheOnePass Nat) =
      some (false, (⟨[5], []⟩ : CacheOnePass Nat)) :=
  (cacheOnePassReset_branches ⟨[], [5]⟩).2.1 rfl (by decide)

/-- Claim C2 counterexample: with replay non-empty and collected
empty, reset hits the fatal branch even though the claimed fatal
condition (both buffers non-empty) is false. -/
theorem cacheOnePassReset_fatal_replay_nonempty :
    CacheOnePass.reset (⟨[0], []⟩ : CacheOnePass Nat) = none ∧
      ¬ (([0] : List Nat) ≠ [] ∧ ([] : List Nat) ≠ []) := by
  decide

/-- Claim C3 (amended): a producer push succeeds exactly when
actualWeight < capacity in lenient mode, or actualWeight + w <
capacity (strictly below, not at most) in strict mode; on success it
appends the sample and increments actualWeight by w. -/
theorem pushSample_succeeds_iff (canOver : Bool) (poolSize : Nat)
    (st : SamplePool Nat) (sample w : Nat) (st' : SamplePool Nat) :
    pushSample canOver poolSize st sample w = some st' ↔
      ((if canOver then st.poolActualSize < poolSize
        else st.poolActualSize + w < poolSize) ∧
        st' = ⟨st.dataPool ++ [sample], st.poolActualSize + w⟩) := by
  cases canOver with
  | false =>
    by_cases h : st.poolActualSize + w < poolSize <;>
      simp [pushSample, pushReady, h, eq_comm]
  | true =>
    by_cases h : st.poolActualSize < poolSize <;>
      simp [pushSample, pushReady, h, eq_comm]

/-- Claim C3 counterexample: in strict mode with capacity 4, current
weight 3 and push weight 1 the claimed predicate actualWeight + w <=
capacity holds, yet the code predicate is strict and the push stays
blocked. -/
theorem pushSample_blocked_at_exact_fit :
    pushSample false 4 (⟨[], 3⟩ : SamplePool Nat) 0 1 = none ∧ 3 + 1 ≤ 4 := by
  decide

/-- Claim C4 (amended): with the default weigher (weight 1) and a
positive requested weight, the batch call returns 0 exactly when the
pool is empty.  In general the call returns 0 exactly when the
accumulated weight of the drawn samples is 0, which a weigher
returning 0 can cause even though samples were drawn. -/
theorem drawLoop_zero_iff_pool_empty {α : Type} (s : Bool) (size : Nat)
    (pool : List α) (rands : List Nat) (hsize : 0 < size) :
    ((drawLoop s (fun _ => 1) size pool rands).2.1 = 0 ↔ pool = []) := by
  constructor
  · intro h
    match pool with
    | [] => rfl
    | x :: xs =>
      exact absurd h
        (Nat.ne_of_gt (drawLoopGo_pos s size hsize xs.length x xs rands))
  · intro h
    subst h
    rfl

/-- Claim C4 witness: requested weight 1 on the empty pool returns 0. -/
theorem drawLoop_zero_iff_pool_empty_witness :
    (0 : Nat) < 1 ∧
      ((drawLoop true (fun _ => 1) 1 ([] : List Nat) []).2.1 = 0 ↔
        ([] : List Nat) = []) :=
  ⟨Nat.zero_lt_one,
    drawLoop_zero_iff_pool_empty true 1 [] [] Nat.zero_lt_one⟩

/-- Claim C4 counterexample: with a weigher returning 0 and requested
weight 1, a drawable sample is drawn yet the call returns 0, the
end-of-pass signal. -/
theorem drawLoop_zero_despite_drawn :
    (drawLoop true (fun _ => 0) 1 [7] []).2.1 = 0 ∧
      (drawLoop true (fun _ => 0) 1 [7] []).1 = [7] := by
  decide

/-- Claim C5: in every reachable state of the pool protocol the weight
counter is at most the capacity in strict mode, and at most the
capacity plus the bound W on one push weight in lenient mode. -/
theorem poolActualSize_bounded (canOver : Bool) (poolSize W aw : Nat)
    (h : PoolReachable canOver poolSize W aw) :
    aw ≤ poolSize + (if canOver then W else 0) := by
  induction h with
  | init => omega
  | step hr hs ih =>
    cases hs with
    | push w hw hready =>
      cases canOver with
      | true =>
        simp [pushReady] at hready
        simp at ih ⊢
        omega
      | false =>
        simp [pushReady] at hready
        simp at ih ⊢
        omega
    | pop d hd => omega

/-- Claim C5 witness: after one lenient push of weight 2 from the
empty pool, the counter 2 is within capacity 4 plus push bound 2. -/
theorem poolActualSize_bounded_witness :
    (2 : Nat) ≤ 4 + (if true then 2 else 0) :=
  poolActualSize_bounded true 4 2 2
    (PoolReachable.step PoolReachable.init
      (PoolStep.push 0 2 (by omega) (by decide)))

/-- Claim C6 (amended): provided the first pass produced at least one
sample, a reset after a completed pass under cache-one-pass-in-memory
swaps the buffers without starting a producer thread, and draining the
replay buffer yields the same total sample count as the first pass. -/
theorem runTwoPasses_replay_count {α : Type} (s : Bool) (b : Nat)
    (S : List α) (r1 r2 : List Nat) (hb : 0 < b) (hS : S ≠ []) :
    runTwoPasses s b S r1 r2 = some (S.length, false, S.length) := by
  obtain ⟨h1a, h1b⟩ := drainPass_spec s b S r1 hb
  have hd : (drainPass s b S r1).2 ≠ [] := by
    intro hcon
    rw [hcon] at h1b
    simp at h1b
    exact hS (List.length_eq_zero.mp h1b.symm)
  obtain ⟨y, ys, hys⟩ := List.exists_cons_of_ne_nil hd
  have e0 : runTwoPasses s b S r1 r2 =
      (match CacheOnePass.reset
          (⟨[], (drainPass s b S r1).2⟩ : CacheOnePass α) with
       | none => none
       | some (start2, c2) =>
         some ((drainPass s b S r1).1, start2,
           (drainPass s b (if start2 then S else c2.load) r2).1)) := rfl
  have e2 : CacheOnePass.reset
      (⟨[], (drainPass s b S r1).2⟩ : CacheOnePass α) =
      some (false, ⟨(drainPass s b S r1).2, []⟩) := by
    rw [hys]
    simp [CacheOnePass.reset]
  rw [e0, e2]
  show some ((drainPass s b S r1).1, false,
      (drainPass s b ((drainPass s b S r1).2) r2).1) =
    some (S.length, false, S.length)
  obtain ⟨h2a, _⟩ := drainPass_spec s b (drainPass s b S r1).2 r2 hb
  rw [h1a, h2a, h1b]

/-- Claim C6 witness: a one-sample first pass replays with the same
count and no restarted producer. -/
theorem runTwoPasses_replay_count_witness :
    runTwoPasses true 1 [7] [] [] = some (1, false, 1) :=
  runTwoPasses_replay_count true 1 [7] [] [] Nat.zero_lt_one (by decide)

/-- Claim C6 counterexample: when the first pass produced no samples
both cache buffers are empty, so the reset after the completed pass
returns true and a producer thread is started again, contradicting the
claim that no producer thread is started after a completed pass. -/
theorem runTwoPasses_emptyPass_restarts :
    runTwoPasses true 1 ([] : List Nat) [] [] = some (0, true, 0) := by
  decide

/-- Claim C7: for any batch of sparse samples (entries of any type,
covering both the no-value and with-value scanners), the row offset
array has height + 1 entries, starts at 0, is non-decreasing, and its
last entry is nnz, the total entry count, which is also the length of
the concatenated column array; the concrete samples [5], [], [2,7]
encode to rowOffsets [0,1,1,3] and columns [5,2,7]. -/
theorem sparseScanner_rowOffsets_spec :
    (∀ (α : Type) (samples : List (List α)),
      (sparseRowOffsets samples).length = samples.length + 1 ∧
        (sparseRowOffsets samples).head? = some 0 ∧
        List.Pairwise (fun a b => a ≤ b) (sparseRowOffsets samples) ∧
        (sparseRowOffsets samples).getLast? = some (sparseNnz samples) ∧
        (sparseCols samples).length = sparseNnz samples) ∧
      sparseRowOffsets [([5] : List Nat), [], [2, 7]] = [0, 1, 1, 3] ∧
      sparseCols [([5] : List Nat), [], [2, 7]] = [5, 2, 7] := by
  refine ⟨fun α samples => ⟨offsetsFrom_length _ _ _, offsetsFrom_head _ _ _,
    offsetsFrom_pairwise _ _ _, ?_, ?_⟩, by decide, by decide⟩
  · have h := offsetsFrom_getLast List.length 0 samples
    simpa [sparseRowOffsets, sparseNnz] using h
  · simp [sparseCols, sparseNnz]

/-- Claim C8: for a sequence wrapped slot with d nested sequence
levels inside, the offset array over K outer samples has K + 1
entries, starts at 0, is non-decreasing, and ends at the total
recursive inner element count; and the scanner factory wraps the base
scanner once for sequence slots and twice for sub-sequence slots. -/
theorem sequenceScanner_offsets_spec :
    (∀ (d : Nat) (samples : List PyObj),
      (seqOffsets d samples).length = samples.length + 1 ∧
        (seqOffsets d samples).head? = some 0 ∧
        List.Pairwise (fun a b => a ≤ b) (seqOffsets d samples) ∧
        (seqOffsets d samples).getLast? =
          some ((samples.map (getSize d)).sum)) ∧
      (∀ st : SlotType,
        createScanner st SeqType.none = baseScanner st ∧
          createScanner st SeqType.seq = Scanner.seqWrap (baseScanner st) ∧
          createScanner st SeqType.subseq =
            Scanner.seqWrap (Scanner.seqWrap (baseScanner st))) := by
  refine ⟨fun d samples => ⟨offsetsFrom_length _ _ _, offsetsFrom_head _ _ _,
    offsetsFrom_pairwise _ _ _, ?_⟩, fun st => ⟨rfl, rfl, rfl⟩⟩
  have h := offsetsFrom_getLast (getSize d) 0 samples
  simpa [seqOffsets] using h

/-- Claim C9: when shuffling is disabled the position sampler always
returns 0 and the batch loop ignores the random stream, so runs over
the same generator outputs are identical; with two generators yielding
1,2,3 and 4,5,6 the producer emits 1..6 in per-generator order, the
first batch of weight 2 is [1,2], the pool drains FIFO, and the call
after all six samples are drained returns 0. -/
theorem unshuffled_deterministic_scenario :
    (∀ (r len : Nat), positionRandom true r len = 0) ∧
      (∀ (w : Nat → Nat) (size : Nat) (pool : List Nat) (r1 r2 : List Nat),
        drawLoop true w size pool r1 = drawLoop true w size pool r2) ∧
      loadThreadOrder [[1, 2, 3], [4, 5, 6]] = [1, 2, 3, 4, 5, 6] ∧
      drawLoop true (fun _ => 1) 2 [1, 2, 3, 4, 5, 6] [] =
        ([1, 2], 2, [3, 4, 5, 6]) ∧
      drawLoop true (fun _ => 1) 2 [3, 4, 5, 6] [] = ([3, 4], 2, [5, 6]) ∧
      drawLoop true (fun _ => 1) 2 [5, 6] [] = ([5, 6], 2, []) ∧
      (drawLoop true (fun _ => 1) 2 ([] : List Nat) []).2.1 = 0 := by
  refine ⟨fun r len => rfl, ?_, ?_, by decide, by decide, by decide, rfl⟩
  · intro w size pool r1 r2
    obtain ⟨h1, h2, h3⟩ :=
      drawLoopGo_randIndep w size pool.length pool r1 r2 [] 0
    simp only [drawLoop]
    exact Prod.ext h1 (Prod.ext h2 h3)
  · simp [loadThreadOrder]

/-- Claim C10: on a non-empty pool the draw is always in bounds: the
shuffled index rand mod pool.size is below pool.size, the draw always
yields a sample (an element of the pool, hence a non-null handle) and
shrinks the pool by exactly one. -/
theorem drawStep_index_bounds {α : Type} (s : Bool) (r : Nat)
    (pool : List α) (h : pool ≠ []) :
    r % pool.length < pool.length ∧
      ∃ a pool', drawStep s r pool = some (a, pool') ∧ a ∈ pool ∧
        pool'.length + 1 = pool.length := by
  refine ⟨Nat.mod_lt r (List.length_pos.mpr h), ?_⟩
  obtain ⟨a, pool', hstep⟩ := drawStep_some_of_ne_nil s r pool h
  obtain ⟨hmem, hlen, _⟩ := drawStep_sound s r pool pool' a hstep
  exact ⟨a, pool', hstep, hmem, hlen⟩

/-- Claim C10 witness: shuffled draw with oracle 7 on a pool of three
samples. -/
theorem drawStep_index_bounds_witness :
    7 % [1, 2, 3].length < [1, 2, 3].length ∧
      ∃ a pool', drawStep false 7 [1, 2, 3] = some (a, pool') ∧
        a ∈ [1, 2, 3] ∧ pool'.length + 1 = [1, 2, 3].length :=
  drawStep_index_bounds false 7 [1, 2, 3] (by decide)

end PyDataProvider2
